import Mathlib

/-!
Verification of the constant-expression node subsystem of the Nuitka
compiler front end (files `nuitka/nodes/ConstantRefNodes.py`,
`nuitka/nodes/BuiltinTypeNodes.py`, `nuitka/utils/CStrings.py`), as a
shallow embedding in Lean.  Compile-time constant values are modelled by
the inductive `PyConst`, IR nodes by `Node`, and each Python method of
the source becomes a Lean function on these types.  Machinery that the
repository uses but that is not among the three source files (the
data-flow collection, node-making helpers, the `isIterableConstant`
family of predicates, the `isDebug` option) is modelled from the spec,
with doc comments marking those definitions.
-/

namespace Spec2Proof

/-! ## Data model: compile-time constant values

`PyConst` is the closed set of value shapes the constant node family
carries: the four payload-free singletons, numbers, strings and bytes,
containers, slices and type references.  Numeric payloads are modelled
with `Int`/`Rat`; a Python `dict` is its ordered list of key/value
pairs (the iteration order `iterItems` exposes); a `set`/`frozenset` is
its ordered list of elements in iteration order. -/

inductive PyConst where
  | vNone
  | vTrue
  | vFalse
  | vEllipsis
  | vInt (n : Int)
  | vLong (n : Int)
  | vFloat (q : Rat)
  | vComplex (re im : Rat)
  | vStr (s : String)
  | vUnicode (s : String)
  | vBytes (bs : List Nat)
  | vTuple (xs : List PyConst)
  | vList (xs : List PyConst)
  | vSet (xs : List PyConst)
  | vFrozenset (xs : List PyConst)
  | vDict (ps : List (PyConst × PyConst))
  | vSlice (lower upper step : PyConst)
  | vType (name : String)

/-- The Python type name of a constant, as `type(constant).__name__`
renders it (used by `computeExpressionCall` for its error message). -/
def pyTypeName : PyConst → String
  | .vNone => "NoneType"
  | .vTrue => "bool"
  | .vFalse => "bool"
  | .vEllipsis => "ellipsis"
  | .vInt _ => "int"
  | .vLong _ => "long"
  | .vFloat _ => "float"
  | .vComplex _ _ => "complex"
  | .vStr _ => "str"
  | .vUnicode _ => "unicode"
  | .vBytes _ => "bytes"
  | .vTuple _ => "tuple"
  | .vList _ => "list"
  | .vSet _ => "set"
  | .vFrozenset _ => "frozenset"
  | .vDict _ => "dict"
  | .vSlice _ _ _ => "slice"
  | .vType _ => "type"

/-- Python `len()` on a constant: `some` size for the sized kinds,
`none` where `len` raises `TypeError` (numbers, singletons, slices,
type references). -/
def pyLen : PyConst → Option Nat
  | .vStr s => some s.length
  | .vUnicode s => some s.length
  | .vBytes bs => some bs.length
  | .vTuple xs => some xs.length
  | .vList xs => some xs.length
  | .vSet xs => some xs.length
  | .vFrozenset xs => some xs.length
  | .vDict ps => some ps.length
  | _ => none

/-- The ordered sequence of iteration elements of a constant, `none`
for the non-iterable kinds.  A string iterates its one-character
strings, bytes iterate their byte values, a dict iterates its keys.
Modelled from the spec: `isIterableConstant` and
`getConstantIterationLength` live in `nuitka.Constants`, which is not
among the source files; the spec describes them as the
"is-iterable-known(count)" query and the iteration length/elements of
the iterable kinds. -/
def pyIterElems : PyConst → Option (List PyConst)
  | .vStr s => some (s.data.map (fun ch => .vStr (String.mk [ch])))
  | .vUnicode s => some (s.data.map (fun ch => .vUnicode (String.mk [ch])))
  | .vBytes bs => some (bs.map (fun b => .vInt (Int.ofNat b)))
  | .vTuple xs => some xs
  | .vList xs => some xs
  | .vSet xs => some xs
  | .vFrozenset xs => some xs
  | .vDict ps => some (ps.map Prod.fst)
  | _ => none

/-- Modelled from the spec: `isIterableConstant` of `nuitka.Constants`
(not among the source files) — whether the constant is of an iterable
kind. -/
def isIterableConstant (c : PyConst) : Bool :=
  (pyIterElems c).isSome

/-- Python `tuple(c)`: the tuple of the iteration elements. -/
def pyTuple (c : PyConst) : Option PyConst :=
  (pyIterElems c).map .vTuple

/-! ## IR nodes

`Node` covers the node shapes the claims touch: constant reference
nodes (one constructor carrying the value, the `user_provided` flag and
the source reference; the per-kind subclasses of the source differ only
in their `kind` tag, which is determined by the value's shape), the
deferred-raise replacement node and the side-effect wrapper produced by
the node-making helpers, the two builtin constructor nodes the claims
are about, and a placeholder for arbitrary non-constant expressions. -/

inductive Node where
  | constant (value : PyConst) (userProvided : Bool) (srcRef : Nat)
  | raiseExc (excType : String) (excValue : String) (srcRef : Nat)
  | withEffects (effects : List Node) (expr : Node)
  | otherExpr (id : Nat) (srcRef : Nat)
  | builtinIntLong (value : Option Node) (base : Option Node) (srcRef : Nat)
  | builtinBytearray (value : Node) (srcRef : Nat)

/-- Whether the constant factory `makeConstantRefNode` supports the
value's top-level shape.  The dispatch of the source handles the four
singletons and then the exact types int, str, float, long, unicode,
bytes, dict, tuple, list, set, complex, slice and type; every other
shape (in this universe of values: `frozenset`) falls through to
`assert False` — a fatal internal-contract fault. -/
def supportedConstant : PyConst → Bool
  | .vFrozenset _ => false
  | _ => true

/-- Factory `makeConstantRefNode` (ConstantRefNodes.py): dispatch on the
constant's shape, producing a constant reference node; `none` models
the `assert False` fault on an unsupported shape.  The per-kind
subclasses carry no data beyond their `kind` tag, so the dispatch
collapses to the support test (the empty dict is routed to the
`ExpressionConstantDictEmptyRef` subclass, which again only fixes the
constant to the shared empty dict). -/
def makeConstantRefNode (constant : PyConst) (srcRef : Nat) (userProvided : Bool) :
    Option Node :=
  if supportedConstant constant then some (.constant constant userProvided srcRef)
  else none

/-! ## The optimization protocol -/

/-- The change tags a compute operation can report; the source reports
"no change" as the `None` tag, modelled as `none : Option ChangeTag`. -/
inductive ChangeTag where
  | newConstant
  | newRaise
  | newExpression

/-- Modelled from the spec: the externally owned data-flow collection.
Only the part the claims observe is kept: the record of exception-exit
notifications (`onExceptionRaiseExit`), most recent first. -/
structure Collection where
  raiseExits : List String

/-- Modelled from the spec: `onExceptionRaiseExit` — notify the
collection that the given fault kind may occur at this point. -/
def Collection.onExceptionRaiseExit (col : Collection) (excName : String) : Collection :=
  { col with raiseExits := excName :: col.raiseExits }

/-- The anticipated target-runtime fault kinds the embedding needs. -/
inductive PyFault where
  | typeError
  | keyError
  | indexError
  | valueError
  | assertionError

def faultName : PyFault → String
  | .typeError => "TypeError"
  | .keyError => "KeyError"
  | .indexError => "IndexError"
  | .valueError => "ValueError"
  | .assertionError => "AssertionError"

/-- Method `mayHaveSideEffects`: the constant case is the overridden method of
`ExpressionConstantRefBase` (constants have no side effects); the other
node shapes are modelled from the spec (an arbitrary expression, a
deferred raise or a side-effect wrapper may carry effects). -/
def mayHaveSideEffectsNode : Node → Bool
  | .constant _ _ _ => false
  | _ => true

/-- Method `extractSideEffects`: the constant case is the overridden method of
`ExpressionConstantRefBase` (the empty tuple); the other shapes are
modelled from the spec — a side-effect wrapper yields its effects
followed by those of the wrapped expression, and any other
possibly-effectful expression stands for itself. -/
def extractSideEffectsNode : Node → List Node
  | .constant _ _ _ => []
  | .withEffects effects expr => effects ++ extractSideEffectsNode expr
  | n => [n]

/-- Modelled from the spec: `wrapExpressionWithSideEffects` of the
node-making helpers (not among the source files) — carry the given
extracted side effects onto a replacement node, so only the value
changes; with no effects the replacement stands alone. -/
def wrapExpressionWithSideEffects (sideEffects : List Node) (newNode : Node) : Node :=
  match sideEffects with
  | [] => newNode
  | _ :: _ => .withEffects sideEffects newNode

/-- The effects prefix a wrapped node carries (empty when unwrapped). -/
def effectsPrefix : Node → List Node
  | .withEffects effects _ => effects
  | _ => []

/-- The expression a side-effect wrapper wraps (the node itself when
unwrapped). -/
def effectsTarget : Node → Node
  | .withEffects _ expr => expr
  | n => n

/-- Method `ExpressionConstantRefBase.computeExpression`: a constant cannot be
computed any further — the node itself, no tag, no rationale, and the
collection is untouched. -/
def constantComputeExpression (n : Node) (col : Collection) :
    (Node × Option ChangeTag × Option String) × Collection :=
  ((n, none, none), col)

/-- Method `ExpressionConstantRefBase.computeExpressionCall`: every call of a
constant is predicted to raise — the call node is replaced by a
deferred `TypeError` raise wrapped with the call's extracted pre-call
side effects, tag `new_raise`, and the collection is notified of a
`TypeError` exception exit. -/
def computeExpressionCall (constant : PyConst) (srcRef : Nat)
    (preCallSideEffects : List Node) (col : Collection) :
    (Node × Option ChangeTag × Option String) × Collection :=
  ((wrapExpressionWithSideEffects preCallSideEffects
      (.raiseExc "TypeError"
        ("'" ++ pyTypeName constant ++ "' object is not callable") srcRef),
    some .newRaise,
    some "Predicted call of constant value to exception raise."),
   col.onExceptionRaiseExit "TypeError")

/-! ## Mapping pair accessors (ConstantRefNodes.py) -/

/-- Method `ExpressionConstantRefBase.getMappingPairs`.  The loop body of the
source is `pairs.append(keyNode, valueNode)` — `list.append` accepts
exactly one argument, so the first loop iteration raises `TypeError`.
Hence the empty mapping yields the empty list and every non-empty
mapping faults before any pair is produced.  The pair list is the
mapping constant's payload in iteration order. -/
def getMappingPairs (pairs0 : List (PyConst × PyConst)) (srcRef : Nat) :
    Except PyFault (List Node) :=
  match pairs0 with
  | [] => .ok []
  | _ :: _ => .error .typeError

/-- Method `ExpressionConstantRefBase.getMappingStringKeyPairs`: for each
key/value pair of the mapping in iteration order, the raw key together
with the value wrapped through the constant factory (`none` models the
factory's internal fault on an unsupported value shape). -/
def getMappingStringKeyPairs (pairs0 : List (PyConst × PyConst)) (srcRef : Nat) :
    Option (List (PyConst × Node)) :=
  pairs0.mapM (fun kv => (makeConstantRefNode kv.2 srcRef false).map (fun n => (kv.1, n)))

/-- Method `ExpressionConstantRefBase.isMappingWithConstantStringKeys`: all
keys of the mapping are strings (`str` or `unicode`). -/
def isMappingWithConstantStringKeys (pairs0 : List (PyConst × PyConst)) : Bool :=
  pairs0.all (fun kv =>
    match kv.1 with
    | .vStr _ => true
    | .vUnicode _ => true
    | _ => false)

/-! ## Iteration values (ConstantRefNodes.py) -/

/-- Python `key == n` for an integer `n`, as dict lookup by an integer
index compares keys (numeric kinds compare by value, booleans count as
0/1, every other kind is unequal to an integer). -/
def pyEqInt : PyConst → Int → Bool
  | .vInt m, n => m == n
  | .vLong m, n => m == n
  | .vTrue, n => n == 1
  | .vFalse, n => n == 0
  | .vFloat q, n => q == (n : Rat)
  | _, _ => false

/-- Python subscription `c[n]` for a natural index `n`: sequences index
their elements (`bytes` yields the byte value, strings a one-character
string), a dict looks the integer up among its keys (`KeyError` when
absent), and sets, frozensets and all non-subscriptable kinds raise
`TypeError`. -/
def pyGetItem : PyConst → Nat → Except PyFault PyConst
  | .vTuple xs, n =>
    match xs[n]? with
    | some v => .ok v
    | none => .error .indexError
  | .vList xs, n =>
    match xs[n]? with
    | some v => .ok v
    | none => .error .indexError
  | .vStr s, n =>
    match s.data[n]? with
    | some ch => .ok (.vStr (String.mk [ch]))
    | none => .error .indexError
  | .vUnicode s, n =>
    match s.data[n]? with
    | some ch => .ok (.vUnicode (String.mk [ch]))
    | none => .error .indexError
  | .vBytes bs, n =>
    match bs[n]? with
    | some b => .ok (.vInt (Int.ofNat b))
    | none => .error .indexError
  | .vDict ps, n =>
    match ps.find? (fun kv => pyEqInt kv.1 (Int.ofNat n)) with
    | some kv => .ok kv.2
    | none => .error .keyError
  | _, _ => .error .typeError

/-- The constant factory's result as the compute protocol sees it: the
wrapped node, or an internal contract fault for an unsupported shape. -/
def factoryResult (c : PyConst) (srcRef : Nat) : Except PyFault Node :=
  match makeConstantRefNode c srcRef false with
  | some n => .ok n
  | none => .error .assertionError

/-- Method `ExpressionConstantRefBase.getIterationValue`: the source first
evaluates `len(self.constant)` (raising `TypeError` for unsized kinds),
then asserts `count < len` (an `AssertionError` contract fault when the
index is out of range), then wraps `self.constant[count]` through the
constant factory — so element access goes through Python subscription,
not through the iteration protocol. -/
def getIterationValue (constant : PyConst) (srcRef : Nat) (count : Nat) :
    Except PyFault Node :=
  match pyLen constant with
  | none => .error .typeError
  | some len =>
    if count < len then
      match pyGetItem constant count with
      | .error f => .error f
      | .ok v => factoryResult v srcRef
    else .error .assertionError

/-! ## Compile-time iteration rewriting (ConstantRefNodes.py) -/

/-- The kind test of `computeExpressionIter1`:
`type(self.constant) in (list, set, frozenset, dict)`. -/
def isListSetFrozensetDict : PyConst → Bool
  | .vList _ => true
  | .vSet _ => true
  | .vFrozenset _ => true
  | .vDict _ => true
  | _ => false

/-- The observable outcome of `computeExpressionIter1`: what the
constant node was replaced with (via `replaceWith`), the reported tag
and rationale for the iteration node, and the collection state. -/
structure Iter1Outcome where
  replacement : Option Node
  tag : Option ChangeTag
  description : Option String
  col : Collection

/-- Method `ExpressionConstantRefBase.computeExpressionIter1`: for a list,
set, frozenset or dict constant the node replaces itself with the
tuple of the constant's elements (same `user_provided`, same source
reference) and reports `new_constant`; a non-iterable constant leaves
everything unchanged but notifies the collection of a possible
`TypeError` exit; every other (iterable) kind changes nothing. -/
def computeExpressionIter1 (constant : PyConst) (userProvided : Bool) (srcRef : Nat)
    (col : Collection) : Iter1Outcome :=
  if isListSetFrozensetDict constant then
    { replacement := (pyTuple constant).bind (fun t => makeConstantRefNode t srcRef userProvided)
      tag := some .newConstant
      description := some ("Iteration over constant " ++ pyTypeName constant ++
        " changed to tuple.")
      col := col }
  else if isIterableConstant constant then
    { replacement := none, tag := none, description := none, col := col }
  else
    { replacement := none, tag := none, description := none
      col := col.onExceptionRaiseExit "TypeError" }

/-! ## The oversized-constant diagnostic (ConstantRefNodes.py) -/

/-- The size threshold of the constructor's diagnostic:
`type(constant) in (str, unicode)` gets 1000, every other sized
payload 256. -/
def maxConstantSize : PyConst → Nat
  | .vStr _ => 1000
  | .vUnicode _ => 1000
  | _ => 256

/-- Whether `ExpressionConstantRefBase.__init__` emits the "Too large
constant" diagnostic: only when the node is not user provided and
`isDebug()` holds, `len(constant)` succeeds (a `TypeError` from `len`
is swallowed) and the size exceeds the kind's threshold.  `isDebug` is
modelled from the spec as a boolean parameter: it lives in
`nuitka.Options`, which is not among the source files. -/
def tooLargeWarning (constant : PyConst) (userProvided : Bool) (debugMode : Bool) : Bool :=
  if userProvided then false
  else if debugMode then
    match pyLen constant with
    | some size => decide (size > maxConstantSize constant)
    | none => false
  else false

/-! ## The shared fold algorithm and the int/long constructor node
(BuiltinTypeNodes.py) -/

/-- The source reference a node carries. -/
def srcRefOfNode : Node → Nat
  | .constant _ _ src => src
  | .raiseExc _ _ src => src
  | .withEffects _ expr => srcRefOfNode expr
  | .otherExpr _ src => src
  | .builtinIntLong _ _ src => src
  | .builtinBytearray _ src => src

/-- The operand children of a node (present slots in declared order). -/
def childNodes : Node → List Node
  | .builtinIntLong value base _ => value.toList ++ base.toList
  | .builtinBytearray value _ => [value]
  | .withEffects effects expr => effects ++ [expr]
  | _ => []

/-- The extracted side effects of a node's operands, in order. -/
def childSideEffects (n : Node) : List Node :=
  (childNodes n).flatMap extractSideEffectsNode

/-- Modelled from the spec: the collection's compile-time-evaluation
helper (`getCompileTimeComputationResult`) — run the supplied
computation; on success replace the node with a constant holding the
result, tag `new_constant`; on an anticipated fault replace it with a
deferred raise carrying that fault kind and notify the collection of
the exception exit; either replacement carries the extracted side
effects of the node's operands forward (the spec's side-effect
discipline). -/
def getCompileTimeComputationResult (node : Node) (computation : Except PyFault PyConst)
    (description : String) (col : Collection) :
    (Node × Option ChangeTag × Option String) × Collection :=
  match computation with
  | .ok v =>
    match makeConstantRefNode v (srcRefOfNode node) false with
    | some newNode =>
      ((wrapExpressionWithSideEffects (childSideEffects node) newNode,
        some .newConstant, some description), col)
    | none => ((node, none, none), col)
  | .error f =>
    ((wrapExpressionWithSideEffects (childSideEffects node)
        (.raiseExc (faultName f) "" (srcRefOfNode node)),
      some .newRaise, some description),
     col.onExceptionRaiseExit (faultName f))

/-- The constant payload of a node, when it is a constant node. -/
def constantValueOfNode : Node → Option PyConst
  | .constant v _ _ => some v
  | _ => none

/-- All collected operands' payloads, when every one is a constant. -/
def allConstantValues (nodes : List Node) : Option (List PyConst) :=
  nodes.mapM constantValueOfNode

/-- Modelled from the spec: the shared fold algorithm
(`computeBuiltinSpec` of `ExpressionSpecBasedComputationMixin`) — when
every collected operand is a constant node, attempt the native
constructor on their values through the compile-time-evaluation helper;
otherwise leave the node unchanged with no rationale. -/
def computeBuiltinSpec (node : Node) (builtin : List PyConst → Except PyFault PyConst)
    (description : String) (givenValues : List Node) (col : Collection) :
    (Node × Option ChangeTag × Option String) × Collection :=
  match allConstantValues givenValues with
  | some vals => getCompileTimeComputationResult node (builtin vals) description col
  | none => ((node, none, none), col)

/-- Decimal digits to a number, `none` when empty or a non-digit
appears. -/
def digitsToNat : List Char → Option Nat
  | [] => none
  | ds =>
    ds.foldl (fun acc c =>
      acc.bind (fun a => if c.isDigit then some (10 * a + (c.toNat - 48)) else none))
      (some 0)

/-- Python `int(s)` on a string: an optional sign followed by decimal
digits, `ValueError` otherwise (surrounding whitespace and underscore
separators are not modelled; no claim exercises them). -/
def pyIntOfString (s : String) : Except PyFault Int :=
  match s.data with
  | '-' :: rest =>
    match digitsToNat rest with
    | some n => .ok (-(n : Int))
    | none => .error .valueError
  | '+' :: rest =>
    match digitsToNat rest with
    | some n => .ok (n : Int)
    | none => .error .valueError
  | ds =>
    match digitsToNat ds with
    | some n => .ok (n : Int)
    | none => .error .valueError

/-- Python `int(v)` with one argument: numbers truncate toward zero,
booleans count as 0/1, strings parse decimally, everything else is a
`TypeError`. -/
def pyIntOf : PyConst → Except PyFault PyConst
  | .vInt n => .ok (.vInt n)
  | .vLong n => .ok (.vInt n)
  | .vTrue => .ok (.vInt 1)
  | .vFalse => .ok (.vInt 0)
  | .vFloat q => .ok (.vInt (q.num.tdiv (q.den : Int)))
  | .vStr s => (pyIntOfString s).map .vInt
  | .vUnicode s => (pyIntOfString s).map .vInt
  | _ => .error .typeError

/-- The value of one digit character in bases up to 36. -/
def digitValueInBase (c : Char) : Option Nat :=
  if c.isDigit then some (c.toNat - 48)
  else if 97 ≤ c.toNat ∧ c.toNat ≤ 122 then some (c.toNat - 87)
  else if 65 ≤ c.toNat ∧ c.toNat ≤ 90 then some (c.toNat - 55)
  else none

/-- Digits of the given base to a number. -/
def digitsToNatBase (base : Nat) : List Char → Option Nat
  | [] => none
  | ds =>
    ds.foldl (fun acc c =>
      acc.bind (fun a =>
        match digitValueInBase c with
        | some d => if d < base then some (base * a + d) else none
        | none => none))
      (some 0)

/-- Python `int(s, base)` on a string with an explicit base 2..36: an
optional sign followed by digits of that base (`0x`-style prefixes and
base 0 are not modelled; no claim exercises them). -/
def pyIntOfStringBase (s : String) (base : Int) : Except PyFault Int :=
  if base < 2 ∨ 36 < base then .error .valueError
  else
    match s.data with
    | '-' :: rest =>
      match digitsToNatBase base.toNat rest with
      | some n => .ok (-(n : Int))
      | none => .error .valueError
    | '+' :: rest =>
      match digitsToNatBase base.toNat rest with
      | some n => .ok (n : Int)
      | none => .error .valueError
    | ds =>
      match digitsToNatBase base.toNat ds with
      | some n => .ok (n : Int)
      | none => .error .valueError

/-- The native `int` builtin over the collected operand values:
zero arguments yield the canonical zero; one argument converts; two
arguments parse a string in an explicit base (which requires the value
to be a string and the base an integer, `TypeError` otherwise). -/
def pyIntBuiltin : List PyConst → Except PyFault PyConst
  | [] => .ok (.vInt 0)
  | [v] => pyIntOf v
  | [v, b] =>
    match v, b with
    | .vStr s, .vInt n => (pyIntOfStringBase s n).map .vInt
    | .vStr s, .vLong n => (pyIntOfStringBase s n).map .vInt
    | .vUnicode s, .vInt n => (pyIntOfStringBase s n).map .vInt
    | .vUnicode s, .vLong n => (pyIntOfStringBase s n).map .vInt
    | _, _ => .error .typeError
  | _ => .error .typeError

/-- The outcome the hosting runtime gives the base-only call
`int(base = 2)`.  The capability flag `base_only_value` of
`ExpressionBuiltinIntLongBase` is defined by trying exactly this call
once at class-definition time, so the call succeeds (with the value 0)
precisely when the flag is true and raises `TypeError` precisely when
it is false. -/
def hostIntBaseOnly (baseOnlyValue : Bool) : Except PyFault PyConst :=
  if baseOnlyValue then .ok (.vInt 0) else .error .typeError

/-- Constructor `ExpressionBuiltinIntLongBase.__init__`: when the value slot is
omitted and the runtime accepts base-only calls, the value slot is
defaulted to the `'0'` string constant
(`makeConstantReplacementNode(constant = '0', node = self)`, a
node-making helper modelled from the spec as the constant factory at
the node's own source reference). -/
def makeExpressionBuiltinIntLong (baseOnlyValue : Bool) (value base : Option Node)
    (srcRef : Nat) : Node :=
  match value with
  | none =>
    if baseOnlyValue then
      Node.builtinIntLong (some (.constant (.vStr "0") false srcRef)) base srcRef
    else
      Node.builtinIntLong none base srcRef
  | some v => Node.builtinIntLong (some v) base srcRef

/-- Method `ExpressionBuiltinIntLongBase.computeExpression`: with the value
slot omitted and the base present, when `base_only_value` is false the
node is sent to the compile-time-evaluation helper with the host
base-only call (which then raises `TypeError`); when the flag is true
the branch falls through with an empty collected-argument list.  With
both slots omitted the collected list is empty; otherwise the present
operands are collected in slot order.  The collected list then goes
through the shared fold algorithm. -/
def computeExpressionIntLong (baseOnlyValue : Bool) (value base : Option Node)
    (srcRef : Nat) (col : Collection) :
    (Node × Option ChangeTag × Option String) × Collection :=
  match value, base with
  | none, some _ =>
    if baseOnlyValue then
      computeBuiltinSpec (Node.builtinIntLong value base srcRef) pyIntBuiltin
        "int built-in" [] col
    else
      getCompileTimeComputationResult (Node.builtinIntLong value base srcRef)
        (hostIntBaseOnly baseOnlyValue) "int built-in call with only base argument" col
  | none, none =>
    computeBuiltinSpec (Node.builtinIntLong value base srcRef) pyIntBuiltin
      "int built-in" [] col
  | some v, none =>
    computeBuiltinSpec (Node.builtinIntLong value base srcRef) pyIntBuiltin
      "int built-in" [v] col
  | some v, some b =>
    computeBuiltinSpec (Node.builtinIntLong value base srcRef) pyIntBuiltin
      "int built-in" [v, b] col

/-! ## The bytearray constructor node (BuiltinTypeNodes.py) -/

/-- Constructor `ExpressionBuiltinBytearray.__init__`: an omitted operand defaults
to the empty-bytes constant made through the constant factory. -/
def makeExpressionBuiltinBytearray (value : Option Node) (srcRef : Nat) : Option Node :=
  match value with
  | some v => some (Node.builtinBytearray v srcRef)
  | none =>
    (makeConstantRefNode (.vBytes []) srcRef false).map
      (fun d => Node.builtinBytearray d srcRef)

/-- Method `ExpressionBuiltinBytearray.computeExpression`: the node never
folds — it returns itself with no tag and no rationale, whatever its
operand holds, and the collection is untouched. -/
def computeExpressionBytearray (n : Node) (col : Collection) :
    (Node × Option ChangeTag × Option String) × Collection :=
  ((n, none, none), col)

/-! ## Identifier encoding (CStrings.py) -/

/-- A character legal in C identifiers: the class `[a-zA-Z0-9_]` of
`encodePythonIdentifierToC`. -/
def isIdentChar (c : Char) : Bool :=
  (decide (97 ≤ c.toNat) && decide (c.toNat ≤ 122)) ||
  (decide (65 ≤ c.toNat) && decide (c.toNat ≤ 90)) ||
  (decide (48 ≤ c.toNat) && decide (c.toNat ≤ 57)) ||
  (c == '_')

/-- The per-character step of `encodePythonIdentifierToC`: a legal
identifier character stands for itself, `.` becomes the marker `$`,
and every other character becomes `$$<decimal code>$`. -/
def encodeIdentifierChar (c : Char) : List Char :=
  if isIdentChar c then [c]
  else if c == '.' then ['$']
  else '$' :: '$' :: (Nat.repr c.toNat).data ++ ['$']

/-- Function `encodePythonIdentifierToC`: the concatenation of the
per-character encodings (the source applies `re.sub` to each single
character of the input in turn and joins the results). -/
def encodePythonIdentifierToC (value : List Char) : List Char :=
  (value.map encodeIdentifierChar).flatten

/-! ## C string-literal encoding (CStrings.py)

`_encodePythonStringToC` walks the payload byte by byte.  Bytes in
`b'\\\t\r\n"?'` and bytes outside 32..127 are emitted as a backslash
followed by the byte's unpadded octal digits, and a flag remembers that
the text ends in an octal escape; a printable byte is emitted as its
character, preceded by `" "` (closing and reopening the literal) when
it is a decimal digit right after an octal escape.  The result then
passes through `str.replace('" "\\', '\\')` and is wrapped in double
quotes.  `encodePythonStringToC` chops the payload into 16000-byte
chunks, each encoded separately, joined by single spaces. -/

/-- The escape set `b'\\\t\r\n"?'`: backslash, tab, carriage return,
newline, double quote, question mark. -/
def isEscByte (c : Nat) : Bool :=
  c == 92 || c == 9 || c == 13 || c == 10 || c == 34 || c == 63

/-- One octal digit as a character. -/
def octChar (d : Nat) : Char :=
  Char.ofNat (48 + d)

/-- The unpadded octal rendering `'%o' % n` for `n < 512`. -/
def octalDigits (n : Nat) : List Char :=
  if n < 8 then [octChar n]
  else if n < 64 then [octChar (n / 8), octChar (n % 8)]
  else [octChar (n / 64), octChar (n / 8 % 8), octChar (n % 8)]

/-- The loop body of `_encodePythonStringToC`: the text produced for
the byte list, with the octal flag threaded through. -/
def encBody : List Nat → Bool → List Char
  | [], _ => []
  | c :: rest, octalFlag =>
    if isEscByte c then
      '\\' :: octalDigits c ++ encBody rest true
    else if 32 ≤ c ∧ c ≤ 127 then
      (if octalFlag ∧ (48 ≤ c ∧ c ≤ 57) then ['"', ' ', '"'] else []) ++
        Char.ofNat c :: encBody rest false
    else
      '\\' :: octalDigits c ++ encBody rest true

/-- Python `str.replace(pat, repl)`: scan left to right, replace each
non-overlapping occurrence of the pattern and continue after the
replacement. -/
def pyStrReplace (pat repl : List Char) : List Char → List Char
  | [] => []
  | c :: rest =>
    if pat ≠ [] ∧ pat.isPrefixOf (c :: rest) then
      repl ++ pyStrReplace pat repl ((c :: rest).drop pat.length)
    else
      c :: pyStrReplace pat repl rest
termination_by l => l.length
decreasing_by
  · simp only [List.length_drop, List.length_cons]
    have : pat.length ≠ 0 := by
      intro h0
      exact (by assumption : pat ≠ [] ∧ _).1 (List.length_eq_zero.mp h0)
    omega
  · simp

/-- Function `_encodePythonStringToC`: encode the bytes, apply the
`'" "\\' -> '\\'` replacement, wrap in double quotes. -/
def encodePythonStringToCRaw (value : List Nat) : List Char :=
  '"' :: pyStrReplace ['"', ' ', '"', '\\'] ['\\'] (encBody value false) ++ ['"']

/-- The `while` loop of `encodePythonStringToC`: each further 16000-byte
chunk is encoded separately and appended after a single space. -/
def encodeLoop (value : List Nat) : List Char :=
  if h : value = [] then []
  else
    ' ' :: (encodePythonStringToCRaw (value.take 16000) ++ encodeLoop (value.drop 16000))
termination_by value.length
decreasing_by
  simp only [List.length_drop]
  have : value.length ≠ 0 := fun h0 => h (List.length_eq_zero.mp h0)
  omega

/-- Function `encodePythonStringToC`: the first 16000-byte chunk followed by the
loop over the rest. -/
def encodePythonStringToC (value : List Nat) : List Char :=
  encodePythonStringToCRaw (value.take 16000) ++ encodeLoop (value.drop 16000)

/-! ## A decoder for the backend's C string-literal grammar

The fragment of the C grammar the encoder's output lives in: a sequence
of double-quoted literals separated by spaces, concatenated by the
backend; inside a literal, a backslash followed by one to three octal
digits denotes the byte with that octal value (three digits are
consumed greedily, as C consumes them), and any other character denotes
its own code. -/

/-- An octal digit character. -/
def isOctDigitChar (c : Char) : Bool :=
  decide (48 ≤ c.toNat) && decide (c.toNat ≤ 55)

/-- The value of an octal digit character. -/
def octVal (c : Char) : Nat :=
  c.toNat - 48

/-- Decode the inside of one quoted literal up to and including its
closing quote: the bytes denoted and the remaining input.  `none` when
the literal is unterminated or an escape is not an octal escape. -/
def decBody : List Char → Option (List Nat × List Char)
  | [] => none
  | [c] =>
    if c = '"' then some ([], []) else none
  | [c, c1] =>
    if c = '"' then some ([], [c1])
    else if c = '\\' then none
    else (decBody [c1]).map (fun p => (c.toNat :: p.1, p.2))
  | [c, c1, c2] =>
    if c = '"' then some ([], [c1, c2])
    else if c = '\\' then
      if isOctDigitChar c1 then
        if isOctDigitChar c2 then none
        else (decBody [c2]).map (fun p => (octVal c1 :: p.1, p.2))
      else none
    else (decBody [c1, c2]).map (fun p => (c.toNat :: p.1, p.2))
  | c :: c1 :: c2 :: c3 :: rest3 =>
    if c = '"' then some ([], c1 :: c2 :: c3 :: rest3)
    else if c = '\\' then
      if isOctDigitChar c1 then
        if isOctDigitChar c2 then
          if isOctDigitChar c3 then
            (decBody rest3).map
              (fun p => ((octVal c1 * 64 + octVal c2 * 8 + octVal c3) :: p.1, p.2))
          else
            (decBody (c3 :: rest3)).map
              (fun p => ((octVal c1 * 8 + octVal c2) :: p.1, p.2))
        else
          (decBody (c2 :: c3 :: rest3)).map (fun p => (octVal c1 :: p.1, p.2))
      else none
    else
      (decBody (c1 :: c2 :: c3 :: rest3)).map (fun p => (c.toNat :: p.1, p.2))

/-- Skip the space separators between adjacent literals. -/
def skipSpaces : List Char → List Char
  | ' ' :: rest => skipSpaces rest
  | l => l

/-- The remainder `decBody` returns is strictly shorter than its input. -/
theorem decBody_length_lt (l : List Char) :
    ∀ bs r, decBody l = some (bs, r) → r.length < l.length := by
  induction l using decBody.induct <;> intro bs r h <;> simp [decBody, *] at h
  case case2 =>
    obtain ⟨h1, h2⟩ := h
    subst h2
    simp only [List.length_cons, List.length_nil]
    omega
  case case4 =>
    obtain ⟨h1, h2⟩ := h
    subst h2
    simp only [List.length_cons, List.length_nil]
    omega
  case case6 =>
    obtain ⟨hq, hb, hr⟩ := h
    subst hr
    simp only [List.length_cons, List.length_nil]
    omega
  case case7 =>
    obtain ⟨h1, h2⟩ := h
    subst h2
    simp only [List.length_cons, List.length_nil]
    omega
  case case9 =>
    obtain ⟨hq, hb, hr⟩ := h
    subst hr
    simp only [List.length_cons, List.length_nil]
    omega
  case case11 =>
    obtain ⟨a, ha, hb⟩ := h
    split_ifs at ha <;> simp_all <;> omega
  case case12 =>
    obtain ⟨h1, h2⟩ := h
    subst h2
    simp only [List.length_cons, List.length_nil]
    omega
  case case13 =>
    rename_i ih
    obtain ⟨a, ha, hb⟩ := h
    have := ih a r ha
    simp only [List.length_cons] at this ⊢
    omega
  case case14 =>
    rename_i ih
    obtain ⟨a, ha, hb⟩ := h
    have := ih a r ha
    simp only [List.length_cons] at this ⊢
    omega
  case case15 =>
    rename_i ih
    obtain ⟨a, ha, hb⟩ := h
    have := ih a r ha
    simp only [List.length_cons] at this ⊢
    omega
  case case17 =>
    rename_i ih
    obtain ⟨a, ha, hb⟩ := h
    have := ih a r ha
    simp only [List.length_cons] at this ⊢
    omega

/-- Helper `skipSpaces` never lengthens its input. -/
theorem skipSpaces_length_le (l : List Char) : (skipSpaces l).length ≤ l.length := by
  induction l with
  | nil => simp [skipSpaces]
  | cons c rest ih =>
    by_cases hc : c = ' '
    · subst hc
      calc (skipSpaces (' ' :: rest)).length = (skipSpaces rest).length := by rw [skipSpaces]
        _ ≤ rest.length := ih
        _ ≤ (' ' :: rest).length := by simp
    · have : skipSpaces (c :: rest) = c :: rest := by
        rw [skipSpaces.eq_def]
        split
        · simp_all
        · rfl
      rw [this]

/-- Decode a whole backend text: a quoted literal, then — after the
space separators — further literals whose contents are concatenated. -/
def decodeCLiterals (l : List Char) : Option (List Nat) :=
  match l with
  | '"' :: rest =>
    match hd : decBody rest with
    | none => none
    | some (bs, rest2) =>
      if skipSpaces rest2 = [] then some bs
      else (decodeCLiterals (skipSpaces rest2)).map (fun bs2 => bs ++ bs2)
  | _ => none
termination_by l.length
decreasing_by
  have h1 := decBody_length_lt rest bs rest2 hd
  have h2 := skipSpaces_length_le rest2
  simp only [List.length_cons]
  omega

/-! ### Round-trip groundwork: characters and octal escapes -/

theorem toNat_ofNat_small {n : Nat} (h : n < 256) : (Char.ofNat n).toNat = n := by
  have hv : n.isValidChar := Or.inl (by omega)
  simp [Char.ofNat, hv, Char.ofNatAux, Char.toNat, UInt32.toNat, BitVec.toNat_ofNatLt]

theorem octChar_toNat {d : Nat} (h : d < 8) : (octChar d).toNat = 48 + d :=
  toNat_ofNat_small (by omega)

theorem isOct_octChar {d : Nat} (h : d < 8) : isOctDigitChar (octChar d) = true := by
  simp [isOctDigitChar, octChar_toNat h]
  omega

theorem octVal_octChar {d : Nat} (h : d < 8) : octVal (octChar d) = d := by
  simp [octVal, octChar_toNat h]

theorem ofNat_ne_of_toNat_ne {n : Nat} (hn : n < 256) {c : Char} (h : c.toNat ≠ n) :
    Char.ofNat n ≠ c := by
  intro he
  apply h
  rw [← he, toNat_ofNat_small hn]

/-- The head of the list, when there is one, is not an octal digit. -/
def headNotOct : List Char → Prop
  | [] => True
  | c :: _ => isOctDigitChar c = false

theorem decBody_quote (rest : List Char) : decBody ('"' :: rest) = some ([], rest) := by
  rcases rest with _ | ⟨a, _ | ⟨b, _ | ⟨c, t⟩⟩⟩ <;> simp [decBody]

theorem decBody_lit {c : Char} (rest : List Char) (h1 : ¬c = '"') (h2 : ¬c = '\\') :
    decBody (c :: rest) = (decBody rest).map (fun p => (c.toNat :: p.1, p.2)) := by
  rcases rest with _ | ⟨a, _ | ⟨b, _ | ⟨d, t⟩⟩⟩ <;> simp [decBody, h1, h2]

/-- Decoding an octal escape: a backslash followed by the unpadded
octal digits of a byte, provided the text as a whole does not continue
with a further octal digit (three-digit escapes are self-delimiting). -/
theorem decBody_escape {c : Nat} (hc : c < 256) (t : List Char) (ht : headNotOct t) :
    decBody ('\\' :: (octalDigits c ++ t)) = (decBody t).map (fun p => (c :: p.1, p.2)) := by
  by_cases h8 : c < 8
  · have hd : octalDigits c = [octChar c] := by rw [octalDigits, if_pos h8]
    rw [hd]
    match t with
    | [] => simp [decBody]
    | [x] =>
      have hx : isOctDigitChar x = false := ht
      simp [decBody, isOct_octChar h8, hx, octVal_octChar h8]
    | x :: y :: r =>
      have hx : isOctDigitChar x = false := ht
      simp [decBody, isOct_octChar h8, hx, octVal_octChar h8]
  · by_cases h64 : c < 64
    · have hd : octalDigits c = [octChar (c / 8), octChar (c % 8)] := by
        rw [octalDigits, if_neg h8, if_pos h64]
      have h1 : c / 8 < 8 := by omega
      have h2 : c % 8 < 8 := by omega
      rw [hd]
      match t with
      | [] => simp [decBody, isOct_octChar h1, isOct_octChar h2]
      | x :: r =>
        have hx : isOctDigitChar x = false := ht
        have hv : octVal (octChar (c / 8)) * 8 + octVal (octChar (c % 8)) = c := by
          rw [octVal_octChar h1, octVal_octChar h2]
          omega
        simp [decBody, isOct_octChar h1, isOct_octChar h2, hx, hv]
    · have hd : octalDigits c = [octChar (c / 64), octChar (c / 8 % 8), octChar (c % 8)] := by
        rw [octalDigits, if_neg h8, if_neg h64]
      have h1 : c / 64 < 8 := by omega
      have h2 : c / 8 % 8 < 8 := by omega
      have h3 : c % 8 < 8 := by omega
      rw [hd]
      have hv : octVal (octChar (c / 64)) * 64 + octVal (octChar (c / 8 % 8)) * 8 +
          octVal (octChar (c % 8)) = c := by
        rw [octVal_octChar h1, octVal_octChar h2, octVal_octChar h3]
        omega
      simp [decBody, isOct_octChar h1, isOct_octChar h2, isOct_octChar h3, hv]

theorem encBody_esc {c : Nat} (r : List Nat) (oc : Bool) (h : isEscByte c = true) :
    encBody (c :: r) oc = '\\' :: (octalDigits c ++ encBody r true) := by
  rw [encBody]
  simp [h]

theorem encBody_nonprint {c : Nat} (r : List Nat) (oc : Bool) (h1 : isEscByte c = false)
    (h2 : ¬(32 ≤ c ∧ c ≤ 127)) :
    encBody (c :: r) oc = '\\' :: (octalDigits c ++ encBody r true) := by
  rw [encBody]
  simp [h1, h2]

theorem encBody_trip {c : Nat} (r : List Nat) (h1 : isEscByte c = false)
    (h2 : 32 ≤ c ∧ c ≤ 127) (h3 : 48 ≤ c ∧ c ≤ 57) :
    encBody (c :: r) true = '"' :: ' ' :: '"' :: (Char.ofNat c :: encBody r false) := by
  rw [encBody]
  simp [h1, h2, h3]

theorem encBody_plain {c : Nat} (r : List Nat) (oc : Bool) (h1 : isEscByte c = false)
    (h2 : 32 ≤ c ∧ c ≤ 127) (h3 : ¬(oc = true ∧ (48 ≤ c ∧ c ≤ 57))) :
    encBody (c :: r) oc = Char.ofNat c :: encBody r false := by
  rw [encBody]
  simp only [h1, h2, if_true, and_true, true_and, if_false]
  rw [if_neg h3, if_neg (by simp [h1])]
  simp

/-- After an octal escape the encoder never continues with an octal
digit: the next character of the encoded text (with the closing quote
appended) is an escape's backslash, an inserted quote, a non-digit
printable character, or the closing quote itself. -/
theorem headNotOct_encBody (rest : List Nat) (s : List Char) :
    headNotOct (encBody rest true ++ ('"' :: s)) := by
  match rest with
  | [] =>
    show isOctDigitChar '"' = false
    decide
  | c :: r =>
    cases h1 : isEscByte c with
    | true =>
      rw [encBody_esc r true h1]
      show isOctDigitChar '\\' = false
      decide
    | false =>
      by_cases h2 : 32 ≤ c ∧ c ≤ 127
      · by_cases h3 : 48 ≤ c ∧ c ≤ 57
        · rw [encBody_trip r h1 h2 h3]
          show isOctDigitChar '"' = false
          decide
        · rw [encBody_plain r true h1 h2 (by intro hcon; exact h3 hcon.2)]
          show isOctDigitChar (Char.ofNat c) = false
          have ht : (Char.ofNat c).toNat = c := toNat_ofNat_small (by omega)
          simp only [isOctDigitChar, ht]
          by_cases hc48 : 48 ≤ c
          · have hnb : ¬c ≤ 55 := by
              intro hle
              exact h3 ⟨hc48, by omega⟩
            simp [hc48, hnb]
          · simp [hc48]
      · rw [encBody_nonprint r true h1 h2]
        show isOctDigitChar '\\' = false
        decide

/-- Where the encoder's output splits the C literal: the bytes encoded
before the first inserted `" "` separator, and — when a separator is
inserted — the bytes from that point on (whose encoding restarts with
the octal flag cleared). -/
def splitAtTrip : List Nat → Bool → List Nat × Option (List Nat)
  | [], _ => ([], none)
  | c :: r, octalFlag =>
    if isEscByte c then
      ((c :: (splitAtTrip r true).1), (splitAtTrip r true).2)
    else if 32 ≤ c ∧ c ≤ 127 then
      if octalFlag ∧ (48 ≤ c ∧ c ≤ 57) then ([], some (c :: r))
      else ((c :: (splitAtTrip r false).1), (splitAtTrip r false).2)
    else
      ((c :: (splitAtTrip r true).1), (splitAtTrip r true).2)

theorem splitAtTrip_esc {c : Nat} (r : List Nat) (oc : Bool) (h : isEscByte c = true) :
    splitAtTrip (c :: r) oc = ((c :: (splitAtTrip r true).1), (splitAtTrip r true).2) := by
  rw [splitAtTrip]
  simp [h]

theorem splitAtTrip_nonprint {c : Nat} (r : List Nat) (oc : Bool) (h1 : isEscByte c = false)
    (h2 : ¬(32 ≤ c ∧ c ≤ 127)) :
    splitAtTrip (c :: r) oc = ((c :: (splitAtTrip r true).1), (splitAtTrip r true).2) := by
  rw [splitAtTrip]
  simp [h1, h2]

theorem splitAtTrip_trip {c : Nat} (r : List Nat) (h1 : isEscByte c = false)
    (h2 : 32 ≤ c ∧ c ≤ 127) (h3 : 48 ≤ c ∧ c ≤ 57) :
    splitAtTrip (c :: r) true = ([], some (c :: r)) := by
  rw [splitAtTrip]
  simp [h1, h2, h3]

theorem splitAtTrip_plain {c : Nat} (r : List Nat) (oc : Bool) (h1 : isEscByte c = false)
    (h2 : 32 ≤ c ∧ c ≤ 127) (h3 : ¬(oc = true ∧ (48 ≤ c ∧ c ≤ 57))) :
    splitAtTrip (c :: r) oc = ((c :: (splitAtTrip r false).1), (splitAtTrip r false).2) := by
  rw [splitAtTrip]
  rw [if_neg (by simp [h1]), if_pos h2, if_neg h3]

/-- Decoding one literal's worth of encoded text: the bytes up to the
first inserted separator, and the remaining text (the rest of the
chunk's encoding when a separator was inserted, the appended
continuation otherwise). -/
theorem decBody_encBody (bs : List Nat) (octalFlag : Bool) (s : List Char)
    (hb : ∀ b ∈ bs, b < 256) :
    decBody (encBody bs octalFlag ++ ('"' :: s)) =
      some ((splitAtTrip bs octalFlag).1,
        match (splitAtTrip bs octalFlag).2 with
        | none => s
        | some rem => ' ' :: '"' :: (encBody rem false ++ ('"' :: s))) := by
  induction bs generalizing octalFlag with
  | nil => simp [encBody, splitAtTrip, decBody_quote]
  | cons c r ih =>
    have hc : c < 256 := hb c (by simp)
    have hbr : ∀ b ∈ r, b < 256 := fun b hbm => hb b (by simp [hbm])
    cases h1 : isEscByte c with
    | true =>
      rw [encBody_esc r octalFlag h1, splitAtTrip_esc r octalFlag h1]
      rw [List.cons_append, List.append_assoc]
      rw [decBody_escape hc (encBody r true ++ ('"' :: s)) (headNotOct_encBody r s)]
      rw [ih true hbr]
      cases hsp : (splitAtTrip r true).2 <;> simp [hsp]
    | false =>
      by_cases h2 : 32 ≤ c ∧ c ≤ 127
      · by_cases h3 : octalFlag = true ∧ (48 ≤ c ∧ c ≤ 57)
        · obtain ⟨hoc, h3d⟩ := h3
          subst hoc
          rw [encBody_trip r h1 h2 h3d, splitAtTrip_trip r h1 h2 h3d]
          rw [List.cons_append, List.cons_append, List.cons_append, decBody_quote]
          simp [encBody_plain r false h1 h2 (by simp), List.cons_append]
        · rw [encBody_plain r octalFlag h1 h2 h3, splitAtTrip_plain r octalFlag h1 h2 h3]
          have hq : ¬Char.ofNat c = '"' := by
            apply ofNat_ne_of_toNat_ne hc
            intro hcon
            rw [show ('"').toNat = 34 from rfl] at hcon
            simp [isEscByte] at h1
            omega
          have hbs : ¬Char.ofNat c = '\\' := by
            apply ofNat_ne_of_toNat_ne hc
            intro hcon
            rw [show ('\\').toNat = 92 from rfl] at hcon
            simp [isEscByte] at h1
            omega
          rw [List.cons_append, decBody_lit _ hq hbs, ih false hbr]
          rw [toNat_ofNat_small hc]
          cases hsp : (splitAtTrip r false).2 <;> simp [hsp]
      · rw [encBody_nonprint r octalFlag h1 h2, splitAtTrip_nonprint r octalFlag h1 h2]
        rw [List.cons_append, List.append_assoc]
        rw [decBody_escape hc (encBody r true ++ ('"' :: s)) (headNotOct_encBody r s)]
        rw [ih true hbr]
        cases hsp : (splitAtTrip r true).2 <;> simp [hsp]

/-- The split's two halves reassemble the byte list. -/
theorem splitAtTrip_append (bs : List Nat) (oc : Bool) :
    (splitAtTrip bs oc).1 ++
      (match (splitAtTrip bs oc).2 with | none => [] | some rem => rem) = bs := by
  induction bs generalizing oc with
  | nil => simp [splitAtTrip]
  | cons c r ih =>
    cases h1 : isEscByte c with
    | true =>
      rw [splitAtTrip_esc r oc h1]
      have := ih true
      cases hsp : (splitAtTrip r true).2 <;> simp [hsp] at this ⊢ <;> exact this
    | false =>
      by_cases h2 : 32 ≤ c ∧ c ≤ 127
      · by_cases h3 : oc = true ∧ (48 ≤ c ∧ c ≤ 57)
        · obtain ⟨hoc, h3d⟩ := h3
          subst hoc
          rw [splitAtTrip_trip r h1 h2 h3d]
          simp
        · rw [splitAtTrip_plain r oc h1 h2 h3]
          have := ih false
          cases hsp : (splitAtTrip r false).2 <;> simp [hsp] at this ⊢ <;> exact this
      · rw [splitAtTrip_nonprint r oc h1 h2]
        have := ih true
        cases hsp : (splitAtTrip r true).2 <;> simp [hsp] at this ⊢ <;> exact this

/-- A remainder the split produces is no longer than the input, and
strictly shorter unless the split happened at the very first byte
(which requires the octal flag). -/
theorem splitAtTrip_rem_length (bs : List Nat) (oc : Bool) (rem : List Nat)
    (h : (splitAtTrip bs oc).2 = some rem) :
    rem.length + (if oc then 0 else 1) ≤ bs.length := by
  induction bs generalizing oc with
  | nil => simp [splitAtTrip] at h
  | cons c r ih =>
    cases h1 : isEscByte c with
    | true =>
      rw [splitAtTrip_esc r oc h1] at h
      have := ih true h
      cases oc <;> simp at this ⊢ <;> omega
    | false =>
      by_cases h2 : 32 ≤ c ∧ c ≤ 127
      · by_cases h3 : oc = true ∧ (48 ≤ c ∧ c ≤ 57)
        · obtain ⟨hoc, h3d⟩ := h3
          subst hoc
          rw [splitAtTrip_trip r h1 h2 h3d] at h
          simp at h
          subst h
          simp
        · rw [splitAtTrip_plain r oc h1 h2 h3] at h
          have := ih false h
          cases oc <;> simp at this ⊢ <;> omega
      · rw [splitAtTrip_nonprint r oc h1 h2] at h
        have := ih true h
        cases oc <;> simp at this ⊢ <;> omega

/-- The remainder's bytes come from the input. -/
theorem splitAtTrip_rem_subset (bs : List Nat) (oc : Bool) (rem : List Nat)
    (h : (splitAtTrip bs oc).2 = some rem) : ∀ b ∈ rem, b ∈ bs := by
  induction bs generalizing oc with
  | nil => simp [splitAtTrip] at h
  | cons c r ih =>
    cases h1 : isEscByte c with
    | true =>
      rw [splitAtTrip_esc r oc h1] at h
      intro b hbm
      exact List.mem_cons_of_mem c (ih true h b hbm)
    | false =>
      by_cases h2 : 32 ≤ c ∧ c ≤ 127
      · by_cases h3 : oc = true ∧ (48 ≤ c ∧ c ≤ 57)
        · obtain ⟨hoc, h3d⟩ := h3
          subst hoc
          rw [splitAtTrip_trip r h1 h2 h3d] at h
          simp at h
          subst h
          intro b hbm
          exact hbm
        · rw [splitAtTrip_plain r oc h1 h2 h3] at h
          intro b hbm
          exact List.mem_cons_of_mem c (ih false h b hbm)
      · rw [splitAtTrip_nonprint r oc h1 h2] at h
        intro b hbm
        exact List.mem_cons_of_mem c (ih true h b hbm)

theorem skipSpaces_space (l : List Char) : skipSpaces (' ' :: l) = skipSpaces l := rfl

theorem skipSpaces_quote (l : List Char) : skipSpaces ('"' :: l) = '"' :: l := rfl

/-- What the decoder does after a closing quote: the end of the input
means no further bytes; otherwise the remaining literals are decoded
and concatenated. -/
def decodeCont (s : List Char) : Option (List Nat) :=
  if skipSpaces s = [] then some []
  else decodeCLiterals (skipSpaces s)

/-- Decoding one chunk's encoding (with an arbitrary continuation after
the closing quote): the chunk's bytes followed by whatever the
continuation decodes to. -/
theorem decodeC_encBody (bs : List Nat) (oc : Bool) (s : List Char)
    (hb : ∀ b ∈ bs, b < 256) :
    decodeCLiterals ('"' :: (encBody bs oc ++ ('"' :: s))) =
      (decodeCont s).map (fun t => bs ++ t) := by
  generalize hn : 2 * bs.length + (if oc then 1 else 0) = n
  induction n using Nat.strong_induction_on generalizing bs oc hb with
  | _ n ih =>
    rw [decodeCLiterals]
    rw [decBody_encBody bs oc s hb]
    cases hsp : (splitAtTrip bs oc).2 with
    | none =>
      have hfst : (splitAtTrip bs oc).1 = bs := by
        have := splitAtTrip_append bs oc
        rw [hsp] at this
        simpa using this
      rw [decodeCont]
      by_cases hs : skipSpaces s = [] <;> simp [hs, hfst]
    | some rem =>
      have hp : (splitAtTrip bs oc).1 ++ rem = bs := by
        have := splitAtTrip_append bs oc
        rw [hsp] at this
        simpa using this
      have hrem_lt : 2 * rem.length < n := by
        have hlen := splitAtTrip_rem_length bs oc rem hsp
        have hbs_pos : 0 < bs.length := by
          cases bs with
          | nil => simp [splitAtTrip] at hsp
          | cons c r => simp
        cases oc <;> simp at hlen hn <;> omega
      have hbrem : ∀ b ∈ rem, b < 256 := fun b hbm =>
        hb b (splitAtTrip_rem_subset bs oc rem hsp b hbm)
      simp only [skipSpaces_space, skipSpaces_quote]
      rw [if_neg (by simp)]
      rw [ih (2 * rem.length) hrem_lt rem false hbrem (by simp)]
      rw [Option.map_map]
      cases hdc : decodeCont s <;> simp [hdc, ← List.append_assoc, hp]

/-! ### The `'" "\\' -> '\\'` replacement is the identity on the
encoder's output

Every double quote the encoder's loop emits starts an inserted
`'"', ' ', '"'` separator, which is always followed by a decimal digit
character — so the four-character pattern (whose last character is a
backslash) never occurs and Python's `str.replace` leaves the text
unchanged. -/

/-- Every suffix of the list that starts with a double quote continues
either with the full separator and then a digit, or (from the
separator's second quote) with a digit directly. -/
def quoteSafe (l : List Char) : Prop :=
  ∀ u, ('"' :: u) <:+ l →
    ∃ d v, 48 ≤ d.toNat ∧ d.toNat ≤ 57 ∧ (u = ' ' :: '"' :: d :: v ∨ u = d :: v)

theorem quoteSafe_nil : quoteSafe [] := by
  intro u hu
  exact absurd (List.eq_nil_of_suffix_nil hu) (by simp)

theorem quoteSafe_cons {c : Char} {l : List Char} (hc : ¬c = '"') (h : quoteSafe l) :
    quoteSafe (c :: l) := by
  intro u hu
  rcases List.suffix_cons_iff.mp hu with he | hl
  · injection he with h1 h2
    exact absurd h1.symm hc
  · exact h u hl

theorem quoteSafe_append {a l : List Char} (ha : ∀ ch ∈ a, ¬ch = '"')
    (h : quoteSafe l) : quoteSafe (a ++ l) := by
  induction a with
  | nil => simpa using h
  | cons c r ih =>
    rw [List.cons_append]
    exact quoteSafe_cons (ha c (by simp)) (ih (fun ch hch => ha ch (by simp [hch])))

theorem quoteSafe_trip {d : Char} {l : List Char} (h48 : 48 ≤ d.toNat)
    (h57 : d.toNat ≤ 57) (h : quoteSafe l) :
    quoteSafe ('"' :: ' ' :: '"' :: d :: l) := by
  intro u hu
  rcases List.suffix_cons_iff.mp hu with he | h1
  · injection he with h1 h2
    exact ⟨d, l, h48, h57, Or.inl h2⟩
  rcases List.suffix_cons_iff.mp h1 with he | h2
  · injection he with h1 h2
    exact absurd h1 (by decide)
  rcases List.suffix_cons_iff.mp h2 with he | h3
  · injection he with h1 h2
    exact ⟨d, l, h48, h57, Or.inr h2⟩
  rcases List.suffix_cons_iff.mp h3 with he | h4
  · injection he with h1 h2
    rw [← h1] at h48
    exact absurd h48 (by decide)
  · exact h u h4

/-- No character of an octal escape is a double quote. -/
theorem octalDigits_no_quote {c : Nat} (hc : c < 256) :
    ∀ ch ∈ octalDigits c, ¬ch = '"' := by
  have hq : ∀ d : Nat, d < 8 → ¬octChar d = '"' := by
    intro d hd he
    have := octChar_toNat hd
    rw [he] at this
    rw [show ('"').toNat = 34 from rfl] at this
    omega
  by_cases h8 : c < 8
  · rw [octalDigits, if_pos h8]
    intro ch hch
    simp at hch
    rw [hch]
    exact hq c h8
  · by_cases h64 : c < 64
    · rw [octalDigits, if_neg h8, if_pos h64]
      intro ch hch
      simp at hch
      rcases hch with h | h <;> rw [h]
      · exact hq _ (by omega)
      · exact hq _ (by omega)
    · rw [octalDigits, if_neg h8, if_neg h64]
      intro ch hch
      simp at hch
      rcases hch with h | h | h <;> rw [h]
      · exact hq _ (by omega)
      · exact hq _ (by omega)
      · exact hq _ (by omega)

/-- The encoder's loop output is quote-safe. -/
theorem quoteSafe_encBody (bs : List Nat) (oc : Bool) (hb : ∀ b ∈ bs, b < 256) :
    quoteSafe (encBody bs oc) := by
  induction bs generalizing oc with
  | nil => exact quoteSafe_nil
  | cons c r ih =>
    have hc : c < 256 := hb c (by simp)
    have hbr : ∀ b ∈ r, b < 256 := fun b hbm => hb b (by simp [hbm])
    cases h1 : isEscByte c with
    | true =>
      rw [encBody_esc r oc h1]
      have : quoteSafe (octalDigits c ++ encBody r true) :=
        quoteSafe_append (octalDigits_no_quote hc) (ih true hbr)
      exact quoteSafe_cons (by decide) this
    | false =>
      by_cases h2 : 32 ≤ c ∧ c ≤ 127
      · by_cases h3 : oc = true ∧ (48 ≤ c ∧ c ≤ 57)
        · obtain ⟨hoc, h3d⟩ := h3
          subst hoc
          rw [encBody_trip r h1 h2 h3d]
          have ht : (Char.ofNat c).toNat = c := toNat_ofNat_small (by omega)
          exact quoteSafe_trip (by omega) (by omega) (ih false hbr)
        · rw [encBody_plain r oc h1 h2 h3]
          have ht : (Char.ofNat c).toNat = c := toNat_ofNat_small (by omega)
          have hq : ¬Char.ofNat c = '"' := by
            intro he
            rw [he] at ht
            rw [show ('"').toNat = 34 from rfl] at ht
            simp [isEscByte] at h1
            omega
          exact quoteSafe_cons hq (ih false hbr)
      · rw [encBody_nonprint r oc h1 h2]
        have : quoteSafe (octalDigits c ++ encBody r true) :=
          quoteSafe_append (octalDigits_no_quote hc) (ih true hbr)
        exact quoteSafe_cons (by decide) this

/-- In a quote-safe text the four-character pattern `'" "\'` has no
occurrence at any suffix. -/
theorem quoteSafe_no_pattern {l : List Char} (h : quoteSafe l) :
    ∀ t, t <:+ l → (['"', ' ', '"', '\\'] : List Char).isPrefixOf t = false := by
  intro t ht
  match t with
  | [] => rfl
  | c :: u =>
    by_cases hc : c = '"'
    · subst hc
      obtain ⟨d, v, h48, h57, hu⟩ := h u ht
      rcases hu with hu | hu <;> subst hu
      · show (['"', ' ', '"', '\\'] : List Char).isPrefixOf ('"' :: ' ' :: '"' :: d :: v) = false
        have hd : ¬('\\' == d) = true := by
          intro he
          rw [show ('\\' == d) = (d == '\\') from Bool.beq_comm ..] at he
          have := eq_of_beq he
          rw [this] at h57
          exact absurd h57 (by decide)
        simp [List.isPrefixOf, hd]
      · show (['"', ' ', '"', '\\'] : List Char).isPrefixOf ('"' :: d :: v) = false
        have hd : ¬(' ' == d) = true := by
          intro he
          have := eq_of_beq he
          rw [← this] at h48
          exact absurd h48 (by decide)
        simp [List.isPrefixOf, hd]
    · have hd : ¬('"' == c) = true := by
        intro he
        exact hc (eq_of_beq he).symm
      simp [List.isPrefixOf, hd]

/-- Python `str.replace` is the identity when the pattern occurs nowhere. -/
theorem pyStrReplace_eq_self {pat repl l : List Char}
    (h : ∀ t, t <:+ l → pat.isPrefixOf t = false) :
    pyStrReplace pat repl l = l := by
  induction l with
  | nil => rw [pyStrReplace]
  | cons c rest ih =>
    rw [pyStrReplace]
    rw [if_neg (by
      intro hcon
      have := h (c :: rest) (List.suffix_refl _)
      rw [hcon.2] at this
      exact absurd this (by simp))]
    rw [ih (fun t htt => h t (htt.trans (List.suffix_cons c rest)))]

/-- With the replacement shown to be the identity, one chunk's encoding
is the quoted loop output. -/
theorem encodeRaw_eq (v : List Nat) (hb : ∀ b ∈ v, b < 256) :
    encodePythonStringToCRaw v = '"' :: (encBody v false ++ ['"']) := by
  rw [encodePythonStringToCRaw]
  rw [pyStrReplace_eq_self (quoteSafe_no_pattern (quoteSafe_encBody v false hb))]
  simp

/-- Decoding the loop's output after a closing quote yields exactly the
remaining bytes. -/
theorem decodeCont_encodeLoop (v : List Nat) (hb : ∀ b ∈ v, b < 256) :
    decodeCont (encodeLoop v) = some v := by
  generalize hn : v.length = n
  induction n using Nat.strong_induction_on generalizing v hb with
  | _ n ih =>
    by_cases hv : v = []
    · subst hv
      rw [encodeLoop]
      simp [decodeCont, skipSpaces]
    · rw [encodeLoop, dif_neg hv]
      have htake : ∀ b ∈ v.take 16000, b < 256 := fun b hbm =>
        hb b (List.take_subset 16000 v hbm)
      have hdrop : ∀ b ∈ v.drop 16000, b < 256 := fun b hbm =>
        hb b (List.drop_subset 16000 v hbm)
      rw [encodeRaw_eq _ htake]
      have hshape : (('"' :: (encBody (v.take 16000) false ++ ['"'])) ++
          encodeLoop (v.drop 16000)) =
          '"' :: (encBody (v.take 16000) false ++ ('"' :: encodeLoop (v.drop 16000))) := by
        simp
      rw [decodeCont, skipSpaces_space, hshape, skipSpaces_quote]
      rw [if_neg (by simp)]
      rw [decodeC_encBody _ false _ htake]
      have hlt : (v.drop 16000).length < n := by
        rw [List.length_drop]
        have : v.length ≠ 0 := fun h0 => hv (List.length_eq_zero.mp h0)
        omega
      rw [ih (v.drop 16000).length hlt (v.drop 16000) hdrop rfl]
      simp [List.take_append_drop]

/-- Decoding the full backend text of `encodePythonStringToC`
reproduces the original bytes. -/
theorem decode_encodePythonStringToC (bs : List Nat) (hb : ∀ b ∈ bs, b < 256) :
    decodeCLiterals (encodePythonStringToC bs) = some bs := by
  have htake : ∀ b ∈ bs.take 16000, b < 256 := fun b hbm =>
    hb b (List.take_subset 16000 bs hbm)
  have hdrop : ∀ b ∈ bs.drop 16000, b < 256 := fun b hbm =>
    hb b (List.drop_subset 16000 bs hbm)
  rw [encodePythonStringToC, encodeRaw_eq _ htake]
  have hshape : (('"' :: (encBody (bs.take 16000) false ++ ['"'])) ++
      encodeLoop (bs.drop 16000)) =
      '"' :: (encBody (bs.take 16000) false ++ ('"' :: encodeLoop (bs.drop 16000))) := by
    simp
  rw [hshape, decodeC_encBody _ false _ htake, decodeCont_encodeLoop _ hdrop]
  simp [List.take_append_drop]

/-! ## The claims -/

/-- C1: evaluating the mapping-pair accessors on the one-entry mapping
with key "a" and value 1 (as on any non-empty mapping): the claimed
`getMappingPairs` behaviour fails — the two-argument `pairs.append`
call raises `TypeError` before any pair is produced — while
`getMappingStringKeyPairs` does return the ordered raw-key/value-node
pairs, as claimed.  The empty mapping is the only mapping on which
`getMappingPairs` returns at all. -/
theorem C1_mappingPairs_bug :
    getMappingPairs [(PyConst.vStr "a", PyConst.vInt 1)] 0 = Except.error PyFault.typeError ∧
    getMappingStringKeyPairs [(PyConst.vStr "a", PyConst.vInt 1)] 0 =
      some [(PyConst.vStr "a", Node.constant (PyConst.vInt 1) false 0)] ∧
    isMappingWithConstantStringKeys [(PyConst.vStr "a", PyConst.vInt 1)] = true ∧
    getMappingPairs ([] : List (PyConst × PyConst)) 0 = Except.ok ([] : List Node) := by
  refine ⟨rfl, rfl, rfl, rfl⟩

/-- C2 counterexample: with the capability flag false (the runtime
rejects base-only calls), the value slot omitted and the base slot the
constant 16, `computeExpression` does not leave the node unchanged: it
reports `new_raise` with a deferred `TypeError` replacement and
notifies the collection — refuting "otherwise leaves the node
unchanged". -/
theorem C2_intLong_baseOnly_cex :
    (computeExpressionIntLong false none (some (Node.constant (PyConst.vInt 16) false 0)) 0
        ⟨[]⟩).1.2.1 = some ChangeTag.newRaise ∧
    (computeExpressionIntLong false none (some (Node.constant (PyConst.vInt 16) false 0)) 0
        ⟨[]⟩).1.1 = Node.raiseExc "TypeError" "" 0 ∧
    (computeExpressionIntLong false none (some (Node.constant (PyConst.vInt 16) false 0)) 0
        ⟨[]⟩).2.raiseExits = ["TypeError"] := by
  refine ⟨rfl, rfl, rfl⟩

/-- C2 amended: with the value slot omitted and the base present,
`computeExpression` attempts the base-only compile-time computation
precisely when the capability flag says base-only calls are rejected —
producing a deferred `TypeError` raise (with the base operand's side
effects carried forward), tag `new_raise`, and an exception-exit
notification; when the flag accepts, the branch falls through to the
zero-argument fold yielding the canonical zero constant (and
construction has anyway already defaulted the omitted value slot to
the `'0'` string constant, so the omitted-value state is unreachable);
with both slots omitted the zero-argument form is evaluated, yielding
the canonical zero constant with tag `new_constant`. -/
theorem C2_intLong_base_amended (b : Node) (src : Nat) (col : Collection) :
    (computeExpressionIntLong false none (some b) src col =
      ((wrapExpressionWithSideEffects (extractSideEffectsNode b)
          (Node.raiseExc "TypeError" "" src),
        some ChangeTag.newRaise, some "int built-in call with only base argument"),
       col.onExceptionRaiseExit "TypeError")) ∧
    (computeExpressionIntLong true none (some b) src col =
      ((wrapExpressionWithSideEffects (extractSideEffectsNode b)
          (Node.constant (PyConst.vInt 0) false src),
        some ChangeTag.newConstant, some "int built-in"), col)) ∧
    (computeExpressionIntLong false none none src col =
      ((Node.constant (PyConst.vInt 0) false src, some ChangeTag.newConstant,
        some "int built-in"), col)) ∧
    (computeExpressionIntLong true none none src col =
      ((Node.constant (PyConst.vInt 0) false src, some ChangeTag.newConstant,
        some "int built-in"), col)) ∧
    (makeExpressionBuiltinIntLong true none (some b) src =
      Node.builtinIntLong (some (Node.constant (PyConst.vStr "0") false src)) (some b) src) := by
  have h0 : pyIntBuiltin [] = Except.ok (PyConst.vInt 0) := rfl
  have h1 : allConstantValues ([] : List Node) = some [] := rfl
  refine ⟨?_, ?_, ?_, ?_, rfl⟩
  · simp [computeExpressionIntLong, getCompileTimeComputationResult, hostIntBaseOnly,
      childSideEffects, childNodes, srcRefOfNode, faultName]
  · simp [computeExpressionIntLong, computeBuiltinSpec, h1,
      getCompileTimeComputationResult, h0, makeConstantRefNode, supportedConstant,
      childSideEffects, childNodes, srcRefOfNode]
  · simp [computeExpressionIntLong, computeBuiltinSpec, h1,
      getCompileTimeComputationResult, h0, makeConstantRefNode, supportedConstant,
      childSideEffects, childNodes, srcRefOfNode, wrapExpressionWithSideEffects]
  · simp [computeExpressionIntLong, computeBuiltinSpec, h1,
      getCompileTimeComputationResult, h0, makeConstantRefNode, supportedConstant,
      childSideEffects, childNodes, srcRefOfNode, wrapExpressionWithSideEffects]

/-- C7: the mutable-byte-buffer constructor node never folds —
`computeExpression` returns the node itself with no tag (the `no_change`
outcome) for every operand state, and an omitted operand defaults at
construction time to the empty-bytes constant node made through the
constant factory. -/
theorem C7_bytearray_never_folds (v : Node) (src : Nat) (col : Collection) :
    computeExpressionBytearray (Node.builtinBytearray v src) col =
      ((Node.builtinBytearray v src, none, none), col) ∧
    makeExpressionBuiltinBytearray none src =
      some (Node.builtinBytearray (Node.constant (PyConst.vBytes []) false src) src) ∧
    makeExpressionBuiltinBytearray (some v) src = some (Node.builtinBytearray v src) := by
  refine ⟨rfl, rfl, rfl⟩

/-- C8: constant nodes are a fixed point of the optimization protocol:
`mayHaveSideEffects` is false, `extractSideEffects` is empty and
`computeExpression` returns the node itself with no change tag and an
untouched collection, for every constant of every kind. -/
theorem C8_constants_are_pure (c : PyConst) (up : Bool) (src : Nat) (col : Collection) :
    mayHaveSideEffectsNode (Node.constant c up src) = false ∧
    extractSideEffectsNode (Node.constant c up src) = [] ∧
    constantComputeExpression (Node.constant c up src) col =
      ((Node.constant c up src, none, none), col) := by
  refine ⟨rfl, rfl, rfl⟩

/-- C10: every call of a constant node is rewritten to a deferred raise:
the reported tag is `new_raise`, the replacement's core is a `TypeError`
raise whose message names the constant's type, the call's extracted
pre-call side effects are carried on the replacement, the collection is
notified of a `TypeError` exception exit, and the recorded rationale is
the call-prediction message. -/
theorem C10_computeExpressionCall_spec (c : PyConst) (src : Nat) (effs : List Node)
    (col : Collection) :
    (computeExpressionCall c src effs col).1.2.1 = some ChangeTag.newRaise ∧
    effectsTarget (computeExpressionCall c src effs col).1.1 =
      Node.raiseExc "TypeError" ("'" ++ pyTypeName c ++ "' object is not callable") src ∧
    effectsPrefix (computeExpressionCall c src effs col).1.1 = effs ∧
    (computeExpressionCall c src effs col).2 = col.onExceptionRaiseExit "TypeError" ∧
    (computeExpressionCall c src effs col).1.2.2 =
      some "Predicted call of constant value to exception raise." := by
  cases effs <;>
    simp [computeExpressionCall, wrapExpressionWithSideEffects, effectsTarget, effectsPrefix]

/-- C4: compile-time iteration of a constant: list, set, frozenset and
dict kinds are rewritten — the constant replaces itself with the tuple
of its iteration elements (same `user_provided`, same source reference)
and the tag is `new_constant`; a non-iterable constant is left
unchanged while the collection is notified that an iteration fault
(`TypeError`) may occur here; every other iterable kind is left fully
unchanged. -/
theorem C4_computeExpressionIter1_spec (c : PyConst) (up : Bool) (src : Nat)
    (col : Collection) :
    (isListSetFrozensetDict c = true →
      ∀ elems, pyIterElems c = some elems →
        computeExpressionIter1 c up src col =
          { replacement := some (Node.constant (PyConst.vTuple elems) up src)
            tag := some ChangeTag.newConstant
            description := some ("Iteration over constant " ++ pyTypeName c ++
              " changed to tuple.")
            col := col }) ∧
    (isIterableConstant c = false →
      computeExpressionIter1 c up src col =
        { replacement := none, tag := none, description := none
          col := col.onExceptionRaiseExit "TypeError" }) ∧
    (isListSetFrozensetDict c = false → isIterableConstant c = true →
      computeExpressionIter1 c up src col =
        { replacement := none, tag := none, description := none, col := col }) := by
  refine ⟨?_, ?_, ?_⟩
  · intro hk elems he
    simp [computeExpressionIter1, hk, pyTuple, he, makeConstantRefNode, supportedConstant]
  · intro hni
    have hk : isListSetFrozensetDict c = false := by
      cases c <;> simp_all [isListSetFrozensetDict, isIterableConstant, pyIterElems]
    simp [computeExpressionIter1, hk, hni]
  · intro hk hit
    simp [computeExpressionIter1, hk, hit]

/-- The sequence kinds: constants whose Python subscription agrees with
their iteration order. -/
def isSequenceKind : PyConst → Bool
  | .vStr _ => true
  | .vUnicode _ => true
  | .vBytes _ => true
  | .vTuple _ => true
  | .vList _ => true
  | _ => false

/-- C5 counterexample: the set constant {5} is iterable with iteration
length 1, yet `iterationValue(0)` — an in-range index — does not return
a node wrapping the element: the source subscripts the payload
(`self.constant[count]`) and a set is not subscriptable, so the call
raises `TypeError`. -/
theorem C5_getIterationValue_cex :
    isIterableConstant (PyConst.vSet [PyConst.vInt 5]) = true ∧
    pyLen (PyConst.vSet [PyConst.vInt 5]) = some 1 ∧
    getIterationValue (PyConst.vSet [PyConst.vInt 5]) 0 0 = Except.error PyFault.typeError := by
  refine ⟨rfl, rfl, rfl⟩

/-- C5 amended: for every sized constant an index at or beyond the
length fails with the out-of-range contract fault, as claimed; the
in-range half holds for the sequence kinds (tuple, list, str, unicode,
bytes), where the result is the constant factory applied to the
iteration element at that position — for set, frozenset and dict kinds
the subscription itself faults (or, for a dict, looks the index up as a
key) even in range. -/
theorem C5_getIterationValue_amended (c : PyConst) (src count : Nat) :
    (∀ len, pyLen c = some len → len ≤ count →
      getIterationValue c src count = Except.error PyFault.assertionError) ∧
    (isSequenceKind c = true →
      ∀ elems e, pyIterElems c = some elems → elems[count]? = some e →
        getIterationValue c src count = factoryResult e src) := by
  constructor
  · intro len hlen hle
    simp only [getIterationValue, hlen]
    rw [if_neg (by omega)]
  · intro hseq elems e he hget
    cases c <;> simp [isSequenceKind] at hseq <;> simp [pyIterElems] at he <;> subst he
    case vStr s =>
      rw [List.getElem?_map] at hget
      match hch : s.data[count]? with
      | none => rw [hch] at hget; simp at hget
      | some ch =>
        rw [hch] at hget
        simp at hget
        have hlt : count < s.data.length := (List.getElem?_eq_some.mp hch).1
        simp only [getIterationValue, pyLen]
        rw [if_pos (show count < s.length from hlt)]
        rw [← hget]
        simp [pyGetItem, hch]
    case vUnicode s =>
      rw [List.getElem?_map] at hget
      match hch : s.data[count]? with
      | none => rw [hch] at hget; simp at hget
      | some ch =>
        rw [hch] at hget
        simp at hget
        have hlt : count < s.data.length := (List.getElem?_eq_some.mp hch).1
        simp only [getIterationValue, pyLen]
        rw [if_pos (show count < s.length from hlt)]
        rw [← hget]
        simp [pyGetItem, hch]
    case vBytes bs =>
      rw [List.getElem?_map] at hget
      match hch : bs[count]? with
      | none => rw [hch] at hget; simp at hget
      | some bv =>
        rw [hch] at hget
        simp at hget
        have hlt : count < bs.length := (List.getElem?_eq_some.mp hch).1
        simp only [getIterationValue, pyLen]
        rw [if_pos hlt]
        rw [← hget]
        simp [pyGetItem, hch]
    case vTuple xs =>
      have hlt : count < xs.length := (List.getElem?_eq_some.mp hget).1
      simp only [getIterationValue, pyLen]
      rw [if_pos hlt]
      simp [pyGetItem, hget]
    case vList xs =>
      have hlt : count < xs.length := (List.getElem?_eq_some.mp hget).1
      simp only [getIterationValue, pyLen]
      rw [if_pos hlt]
      simp [pyGetItem, hget]

/-- C6 counterexample: a 257-element tuple payload exceeds its 256-size
threshold and is not user provided, yet with debug diagnostics off no
warning is emitted — the diagnostic is gated on `isDebug()`, which the
claim omits. -/
theorem C6_tooLargeWarning_cex :
    pyLen (PyConst.vTuple (List.replicate 257 (PyConst.vInt 0))) = some 257 ∧
    maxConstantSize (PyConst.vTuple (List.replicate 257 (PyConst.vInt 0))) = 256 ∧
    tooLargeWarning (PyConst.vTuple (List.replicate 257 (PyConst.vInt 0))) false false =
      false := by
  refine ⟨?_, rfl, rfl⟩
  show some (List.replicate 257 (PyConst.vInt 0)).length = some 257
  rw [List.length_replicate]

/-- C6 amended: the oversized-constant diagnostic fires exactly for a
non-user-provided node in debug mode whose sized payload exceeds its
kind's threshold (1000 for the text kinds, 256 otherwise); it never
fires for a user-provided node, never with debug diagnostics off, and
never for a payload within the threshold or without a size. -/
theorem C6_tooLargeWarning_amended (c : PyConst) (up debugMode : Bool) :
    (up = true → tooLargeWarning c up debugMode = false) ∧
    (debugMode = false → tooLargeWarning c up debugMode = false) ∧
    (pyLen c = none → tooLargeWarning c up debugMode = false) ∧
    (∀ size, pyLen c = some size →
      tooLargeWarning c false true = decide (size > maxConstantSize c)) := by
  refine ⟨?_, ?_, ?_, ?_⟩
  · intro h
    subst h
    rw [tooLargeWarning, if_pos rfl]
  · intro h
    subst h
    cases up <;> simp [tooLargeWarning]
  · intro h
    cases up <;> cases debugMode <;> simp [tooLargeWarning, h]
  · intro size h
    simp [tooLargeWarning, h]

/-- C9 counterexample: the identifier encoding is not injective on all
texts — the one-character text `" "` (a space, encoded as the numeric
escape `$$32$`) and the five-character text `"..32."` (whose dots
encode as bare `$` markers) produce the same output. -/
theorem C9_encodeIdentifier_cex :
    encodePythonIdentifierToC [' '] = encodePythonIdentifierToC ['.', '.', '3', '2', '.'] ∧
    ([' '] : List Char) ≠ ['.', '.', '3', '2', '.'] := by
  constructor
  · decide
  · decide

/-- A character of the dotted-identifier alphabet: legal identifier
characters and the dot. -/
def isDottedIdentChar (c : Char) : Bool :=
  isIdentChar c || c == '.'

/-- The per-character encoding on the dotted-identifier alphabet: the
dot becomes the `$` marker, everything else stands for itself. -/
def dotMap (c : Char) : Char :=
  if c == '.' then '$' else c

theorem encodeIdentifierChar_dotted {c : Char} (h : isDottedIdentChar c = true) :
    encodeIdentifierChar c = [dotMap c] := by
  rw [isDottedIdentChar, Bool.or_eq_true] at h
  rcases h with h | h
  · have hdot : ¬(c == '.') = true := by
      intro he
      rw [eq_of_beq he] at h
      exact absurd h (by decide)
    rw [encodeIdentifierChar, if_pos h, dotMap, if_neg hdot]
  · rw [eq_of_beq h]
    rfl

theorem dotMap_inj {a b : Char} (ha : isDottedIdentChar a = true)
    (hb : isDottedIdentChar b = true) (h : dotMap a = dotMap b) : a = b := by
  by_cases h1 : (a == '.') = true <;> by_cases h2 : (b == '.') = true
  · rw [eq_of_beq h1, eq_of_beq h2]
  · rw [dotMap, if_pos h1, dotMap, if_neg h2] at h
    rw [← h] at hb
    exact absurd hb (by decide)
  · rw [dotMap, if_neg h1, dotMap, if_pos h2] at h
    rw [h] at ha
    exact absurd ha (by decide)
  · rw [dotMap, if_neg h1, dotMap, if_neg h2] at h
    exact h

/-- C9 amended: `encodePythonIdentifierToC` maps `.` to the `$` marker
and every character outside `[a-zA-Z0-9_]` to the numeric-escape form,
and it is injective on texts over the dotted-identifier alphabet
`[a-zA-Z0-9_.]` (the module-name domain it is applied to); on arbitrary
texts it is not injective (see the counterexample), so the original
text is only recoverable within that alphabet. -/
theorem C9_encodeIdentifier_injective_on_dotted (s t : List Char)
    (hs : s.all isDottedIdentChar = true) (ht : t.all isDottedIdentChar = true)
    (h : encodePythonIdentifierToC s = encodePythonIdentifierToC t) : s = t := by
  induction s generalizing t with
  | nil =>
    cases t with
    | nil => rfl
    | cons b r =>
      rw [List.all_cons, Bool.and_eq_true] at ht
      rw [encodePythonIdentifierToC, encodePythonIdentifierToC] at h
      simp [encodeIdentifierChar_dotted ht.1] at h
  | cons a r ih =>
    cases t with
    | nil =>
      rw [List.all_cons, Bool.and_eq_true] at hs
      rw [encodePythonIdentifierToC, encodePythonIdentifierToC] at h
      simp [encodeIdentifierChar_dotted hs.1] at h
    | cons b r2 =>
      rw [List.all_cons, Bool.and_eq_true] at hs ht
      rw [encodePythonIdentifierToC, encodePythonIdentifierToC] at h
      rw [List.map_cons, List.map_cons, List.flatten_cons, List.flatten_cons] at h
      rw [encodeIdentifierChar_dotted hs.1, encodeIdentifierChar_dotted ht.1] at h
      rw [List.singleton_append, List.singleton_append] at h
      injection h with h1 h2
      have h2x : encodePythonIdentifierToC r = encodePythonIdentifierToC r2 := h2
      rw [dotMap_inj hs.1 ht.1 h1, ih r2 hs.2 ht.2 h2x]

/-- C9 amended, witness instance at the concrete dotted text `a.b`. -/
theorem C9_encodeIdentifier_injective_witness :
    (['a', '.', 'b'] : List Char).all isDottedIdentChar = true ∧
    (['a', '.', 'b'] : List Char) = ['a', '.', 'b'] :=
  ⟨by decide,
   C9_encodeIdentifier_injective_on_dotted ['a', '.', 'b'] ['a', '.', 'b']
     (by decide) (by decide) rfl⟩

/-- C3: for every byte payload (all byte values 0–255, payloads under
or over the 16000-byte chunk threshold), decoding the text produced by
`encodePythonStringToC` under the backend's C string-literal grammar —
octal escapes and concatenation of adjacent space-separated quoted
literals — reproduces exactly the original bytes; over-threshold
payloads are split into such chunks with the same combined meaning. -/
theorem C3_encodeLiteral_roundtrip (bs : List Nat) (hb : ∀ b ∈ bs, b < 256) :
    decodeCLiterals (encodePythonStringToC bs) = some bs :=
  decode_encodePythonStringToC bs hb

/-- C3, witness instance: a concrete payload exercising every escape
class (control bytes, quote, backslash, octal-digit adjacency, high
bytes) round-trips. -/
theorem C3_encodeLiteral_roundtrip_witness :
    (∀ b ∈ ([0, 9, 10, 13, 34, 48, 49, 63, 65, 92, 127, 128, 255] : List Nat), b < 256) ∧
    decodeCLiterals
        (encodePythonStringToC [0, 9, 10, 13, 34, 48, 49, 63, 65, 92, 127, 128, 255]) =
      some [0, 9, 10, 13, 34, 48, 49, 63, 65, 92, 127, 128, 255] :=
  ⟨by decide, C3_encodeLiteral_roundtrip _ (by decide)⟩

end Spec2Proof
